import Mathlib

/-!
Shallow embedding of the lift dispatch core of the RDS-Lift-Simulation
repository (class-based implementation, `src/js/main.js`).

The embedded state mirrors the fields of the `LiftSimulation` class:
`floors`, `lifts`, `liftStates` (per lift: `currentFloor` and the `status`
string, 'idle' or 'moving'), `floorCalls` (per floor: `up`/`down` booleans,
index 0 unused as in the JS array of size `floors + 1`) and `pendingCalls`
(a JS array used as a FIFO via push/shift/unshift).

The async `moveLift` method is split at its await boundaries into the
synchronous dispatch part (`moveLiftStart`, everything before the first
await: it sets `status = 'moving'`; the `targetFloor` argument, which in
JS lives in the invocation's closure until arrival, is recorded inside the
`moving` status) and the completion reaction (`liftArriveCore` followed by
`checkPendingCalls`: commit `currentFloor`, run the door cycle, set
`status = 'idle'`, clear both floor-call flags at the target floor, then
drain one pending call). Timed waits become durations computed by
`moveTime`; the door cycle is two fixed 2500 ms phases.
-/

namespace LiftSim

/-- Direction of a floor call ('up' or 'down' in the JS). -/
inductive Direction where
  | up
  | down
deriving DecidableEq, Repr

/-- The `status` field of a lift state. The JS value is the string
'idle' or 'moving'; while moving, the destination floor lives in the
`moveLift` invocation's closure, represented here as the argument of
`moving`. -/
inductive LiftStatus where
  | idle
  | moving (targetFloor : Nat)
deriving DecidableEq, Repr

/-- The `status === 'idle'` check. -/
def LiftStatus.isIdle : LiftStatus → Bool
  | .idle => true
  | .moving _ => false

/-- One element of `liftStates`: `{ currentFloor, status }`. -/
structure Lift where
  currentFloor : Nat
  status : LiftStatus
deriving DecidableEq, Repr

/-- One element of `floorCalls`: `{ up: bool, down: bool }`. -/
structure FloorCall where
  up : Bool
  down : Bool
deriving DecidableEq, Repr

/-- Reading `floorCalls[floor][direction]`. -/
def FloorCall.get (fc : FloorCall) : Direction → Bool
  | .up => fc.up
  | .down => fc.down

/-- Writing `floorCalls[floor][direction] = b`. -/
def FloorCall.set (fc : FloorCall) (d : Direction) (b : Bool) : FloorCall :=
  match d with
  | .up => { fc with up := b }
  | .down => { fc with down := b }

/-- One element of `pendingCalls`: `{ floor, direction }`. -/
structure Call where
  floor : Nat
  direction : Direction
deriving DecidableEq, Repr

/-- The mutable state of the `LiftSimulation` class (DOM handles omitted). -/
structure SimState where
  floors : Nat
  lifts : Nat
  liftStates : List Lift
  floorCalls : List FloorCall
  pendingCalls : List Call
deriving DecidableEq, Repr

/-- The constructor `new LiftSimulation(floors, lifts)`: every lift starts
at floor 1 and idle; `floorCalls` has `floors + 1` entries (index 0 unused),
all flags false; the pending queue starts empty. -/
def createInitialState (floors lifts : Nat) : SimState :=
  { floors := floors
    lifts := lifts
    liftStates := List.replicate lifts { currentFloor := 1, status := .idle }
    floorCalls := List.replicate (floors + 1) { up := false, down := false }
    pendingCalls := [] }

/-- Out-of-range placeholder for indexed access; never an element of a
constructed `liftStates`, and deliberately non-idle so that statements
quantified over indices are vacuous out of range. -/
def dummyLift : Lift := { currentFloor := 1, status := .moving 0 }

/-- Indexing `liftStates[k]` as a total function. -/
def liftAt (ls : List Lift) (k : Nat) : Lift :=
  ls.getD k dummyLift

/-- Distance `Math.abs(a - b)` on floor numbers. -/
def floorDist (a b : Nat) : Nat :=
  ((a : Int) - (b : Int)).natAbs

/-- The loop guard `distance < minDistance` where `minDistance` starts out
as `Infinity` (`none`). -/
def distLt (d : Nat) : Option Nat → Bool
  | none => true
  | some m => d < m

/-- The loop body of `findNearestIdleLift`: scan the lifts in index order,
carrying the current `nearestLift` (initially `-1`) and `minDistance`
(initially `Infinity`); an idle lift strictly closer than the running
minimum replaces it. `i` is the index of the first element of `ls` in the
full list. -/
def findNearestGo (floor : Nat) : List Lift → Nat → Int → Option Nat → Int
  | [], _, nearestLift, _ => nearestLift
  | l :: rest, i, nearestLift, minDistance =>
    if l.status.isIdle then
      let d := floorDist l.currentFloor floor
      if distLt d minDistance then
        findNearestGo floor rest (i + 1) (i : Int) (some d)
      else
        findNearestGo floor rest (i + 1) nearestLift minDistance
    else
      findNearestGo floor rest (i + 1) nearestLift minDistance

/-- The method `findNearestIdleLift(floor)`: index of the nearest idle
lift, or `-1` if no lift is idle. -/
def findNearestIdleLift (s : SimState) (floor : Nat) : Int :=
  findNearestGo floor s.liftStates 0 (-1) none

/-- Replace `liftStates[i]`. -/
def SimState.setLift (s : SimState) (i : Nat) (l : Lift) : SimState :=
  { s with liftStates := s.liftStates.set i l }

/-- Reading `floorCalls[floor]` (out of range never happens at call sites;
the default carries both flags false). -/
def getFloorCall (s : SimState) (floor : Nat) : FloorCall :=
  s.floorCalls.getD floor { up := false, down := false }

/-- Writing `floorCalls[floor][direction] = b`. -/
def setFloorCallFlag (s : SimState) (floor : Nat) (d : Direction) (b : Bool) :
    SimState :=
  { s with floorCalls := s.floorCalls.set floor ((getFloorCall s floor).set d b) }

/-- The synchronous part of `moveLift(liftIndex, targetFloor)` before the
first `await`: `liftState.status = 'moving'` (the destination is held by
the pending invocation, recorded in the status). Both call sites pass an
in-range index obtained from `findNearestIdleLift`. -/
def moveLiftStart (s : SimState) (liftIndex targetFloor : Nat) : SimState :=
  match s.liftStates.get? liftIndex with
  | none => s
  | some l => s.setLift liftIndex { l with status := .moving targetFloor }

/-- The travel span `floorsToMove = Math.abs(targetFloor - liftState.currentFloor)`. -/
def floorsToMove (s : SimState) (liftIndex targetFloor : Nat) : Nat :=
  floorDist targetFloor (liftAt s.liftStates liftIndex).currentFloor

/-- The travel duration `moveTime = floorsToMove * 2000` (2 seconds per floor). -/
def moveTime (s : SimState) (liftIndex targetFloor : Nat) : Nat :=
  floorsToMove s liftIndex targetFloor * 2000

/-- Duration of the door cycle: doors open 2500 ms, then close 2500 ms. -/
def doorCycleTime : Nat := 2500 + 2500

/-- The method `checkPendingCalls()`: if the queue is non-empty, `shift()`
the front, re-run selection; dispatch on success, otherwise `unshift` the
front back. -/
def checkPendingCalls (s : SimState) : SimState :=
  match s.pendingCalls with
  | [] => s
  | nextCall :: rest =>
    let s1 : SimState := { s with pendingCalls := rest }
    let nearestLift := findNearestIdleLift s1 nextCall.floor
    if nearestLift ≠ -1 then
      moveLiftStart s1 nearestLift.toNat nextCall.floor
    else
      { s1 with pendingCalls := nextCall :: s1.pendingCalls }

/-- The tail of `moveLift` after the movement timer fires, up to and
including setting the lift idle and clearing the serviced floor's flags:
`currentFloor = targetFloor`; door cycle; `status = 'idle'`;
`floorCalls[targetFloor].up = false`; `floorCalls[targetFloor].down = false`. -/
def liftArriveCore (s : SimState) (liftIndex targetFloor : Nat) : SimState :=
  match s.liftStates.get? liftIndex with
  | none => s
  | some _ =>
    let s1 := s.setLift liftIndex { currentFloor := targetFloor, status := .idle }
    { s1 with floorCalls := s1.floorCalls.set targetFloor { up := false, down := false } }

/-- The whole completion reaction of `moveLift`: arrival commit, door
cycle, idle, flag clearing, then `checkPendingCalls()`. -/
def liftFinish (s : SimState) (liftIndex targetFloor : Nat) : SimState :=
  checkPendingCalls (liftArriveCore s liftIndex targetFloor)

/-- The method `callLift(floor, direction)`: ignore a duplicate (flag already true);
otherwise set the flag, run selection, dispatch the selected lift or
`push` the call onto `pendingCalls`. -/
def callLift (s : SimState) (floor : Nat) (direction : Direction) : SimState :=
  if !((getFloorCall s floor).get direction) then
    let s1 := setFloorCallFlag s floor direction true
    let nearestLift := findNearestIdleLift s1 floor
    if nearestLift ≠ -1 then
      moveLiftStart s1 nearestLift.toNat floor
    else
      { s1 with pendingCalls := s1.pendingCalls ++ [{ floor := floor, direction := direction }] }
  else s

/-- The states the event loop can reach: a validated construction, button
events (a button for `(floor, direction)` exists only when the direction
stays inside the building), and completions of in-flight trips. -/
inductive Reachable : SimState → Prop where
  | init (floors lifts : Nat) :
      2 ≤ floors → floors ≤ 9 → 1 ≤ lifts → lifts ≤ 5 →
      Reachable (createInitialState floors lifts)
  | call {s : SimState} (floor : Nat) (direction : Direction) :
      Reachable s → 1 ≤ floor → floor ≤ s.floors →
      (direction = .up → floor < s.floors) →
      (direction = .down → 1 < floor) →
      Reachable (callLift s floor direction)
  | finish {s : SimState} (liftIndex targetFloor : Nat) (l : Lift) :
      Reachable s → s.liftStates.get? liftIndex = some l →
      l.status = .moving targetFloor →
      Reachable (liftFinish s liftIndex targetFloor)

/-- The `start-simulation` click handler: parse the two inputs (`none`
models `NaN`), validate floors 2..9 then lifts 1..5; on failure surface
the error message and construct nothing; on success clear the message and
construct the simulation. Returns the final error-message text and the
constructed state, if any. -/
def startSimulation (floorsInput liftsInput : Option Int) :
    String × Option SimState :=
  match floorsInput with
  | none => ("Please enter a valid number of floors (2-9).", none)
  | some floors =>
    if floors < 2 ∨ 9 < floors then
      ("Please enter a valid number of floors (2-9).", none)
    else
      match liftsInput with
      | none => ("Please enter a valid number of lifts (1-5).", none)
      | some lifts =>
        if lifts < 1 ∨ 5 < lifts then
          ("Please enter a valid number of lifts (1-5).", none)
        else
          ("", some (createInitialState floors.toNat lifts.toNat))

/-! ### Basic lemmas about indexed access -/

/-- Distance from a lift's current floor to a requested floor. -/
def dOf (floor : Nat) (l : Lift) : Nat :=
  floorDist l.currentFloor floor

@[simp] theorem liftAt_nil (k : Nat) : liftAt [] k = dummyLift := by
  simp [liftAt]

@[simp] theorem liftAt_cons_zero (l : Lift) (rest : List Lift) :
    liftAt (l :: rest) 0 = l := by
  simp [liftAt]

@[simp] theorem liftAt_cons_succ (l : Lift) (rest : List Lift) (k : Nat) :
    liftAt (l :: rest) (k + 1) = liftAt rest k := by
  simp [liftAt]

@[simp] theorem dummyLift_not_idle : dummyLift.status.isIdle = false := by
  simp [dummyLift, LiftStatus.isIdle]

@[simp] theorem distLt_none (d : Nat) : distLt d none = true := rfl

theorem distLt_some (d m : Nat) : distLt d (some m) = true ↔ d < m := by
  simp [distLt]

theorem distLt_some_false (d m : Nat) : distLt d (some m) = false ↔ m ≤ d := by
  simp [distLt]

/-! ### Characterization of the nearest-idle-lift scan

`findNearestGo` either leaves the accumulator untouched (when no idle
lift in the remaining list beats the running minimum) or returns the
index of the first idle lift achieving the strict minimum distance among
those beating the accumulator. -/

theorem findNearestGo_char (floor : Nat) (ls : List Lift) :
    ∀ (i : Nat) (n : Int) (md : Option Nat),
      (findNearestGo floor ls i n md = n ∧
        ∀ k, (liftAt ls k).status.isIdle = true →
          distLt (dOf floor (liftAt ls k)) md = false)
      ∨ (∃ k, k < ls.length ∧ (liftAt ls k).status.isIdle = true ∧
          findNearestGo floor ls i n md = ((i + k : Nat) : Int) ∧
          distLt (dOf floor (liftAt ls k)) md = true ∧
          (∀ j, (liftAt ls j).status.isIdle = true →
            distLt (dOf floor (liftAt ls j)) md = true →
            dOf floor (liftAt ls k) ≤ dOf floor (liftAt ls j)) ∧
          (∀ j, j < k → (liftAt ls j).status.isIdle = true →
            distLt (dOf floor (liftAt ls j)) md = true →
            dOf floor (liftAt ls k) < dOf floor (liftAt ls j))) := by
  induction ls with
  | nil =>
    intro i n md
    left
    constructor
    · rfl
    · intro k hk
      simp at hk
  | cons l rest ih =>
    intro i n md
    by_cases hid : l.status.isIdle = true
    · by_cases hlt : distLt (dOf floor l) md = true
      · -- the head is idle and beats the running minimum: the scan updates
        have hlt' : distLt (floorDist l.currentFloor floor) md = true := hlt
        have hunf : findNearestGo floor (l :: rest) i n md =
            findNearestGo floor rest (i + 1) (i : Int) (some (dOf floor l)) := by
          simp [findNearestGo, hid, hlt']
          rfl
        rcases ih (i + 1) (i : Int) (some (dOf floor l)) with ⟨heq, hall⟩ |
          ⟨k, hk, hki, heq, hklt, hmin, htie⟩
        · right
          refine ⟨0, by simp, by simpa using hid, ?_, by simpa using hlt, ?_, ?_⟩
          · rw [hunf, heq]; simp
          · intro j hj _
            match j with
            | 0 => simp
            | j + 1 =>
              simp only [liftAt_cons_succ] at hj ⊢
              have := hall j hj
              rw [distLt_some_false] at this
              simpa using this
          · intro j hj
            omega
        · right
          refine ⟨k + 1, by simpa using Nat.succ_lt_succ hk, by simpa using hki,
            ?_, ?_, ?_, ?_⟩
          · rw [hunf, heq]
            congr 1
            omega
          · -- the winner beats the original minimum by transitivity
            simp only [liftAt_cons_succ]
            rw [distLt_some] at hklt
            match md with
            | none => simp
            | some m =>
              rw [distLt_some] at hlt ⊢
              omega
          · intro j hj hjlt
            match j with
            | 0 =>
              simp only [liftAt_cons_zero] at hjlt ⊢
              simp only [liftAt_cons_succ]
              rw [distLt_some] at hklt
              omega
            | j + 1 =>
              simp only [liftAt_cons_succ] at hj hjlt ⊢
              by_cases hcase : distLt (dOf floor (liftAt rest j)) (some (dOf floor l)) = true
              · exact hmin j hj hcase
              · rw [Bool.not_eq_true, distLt_some_false] at hcase
                rw [distLt_some] at hklt
                omega
          · intro j hjk hj hjlt
            match j with
            | 0 =>
              simp only [liftAt_cons_zero] at hjlt ⊢
              simp only [liftAt_cons_succ]
              rw [distLt_some] at hklt
              omega
            | j + 1 =>
              simp only [liftAt_cons_succ] at hj hjlt ⊢
              by_cases hcase : distLt (dOf floor (liftAt rest j)) (some (dOf floor l)) = true
              · exact htie j (by omega) hj hcase
              · rw [Bool.not_eq_true, distLt_some_false] at hcase
                rw [distLt_some] at hklt
                omega
      · -- the head is idle but does not beat the running minimum
        have hlt' : distLt (floorDist l.currentFloor floor) md = false :=
          Bool.eq_false_iff.mpr hlt
        have hunf : findNearestGo floor (l :: rest) i n md =
            findNearestGo floor rest (i + 1) n md := by
          simp [findNearestGo, hid, hlt']
        rcases ih (i + 1) n md with ⟨heq, hall⟩ | ⟨k, hk, hki, heq, hklt, hmin, htie⟩
        · left
          refine ⟨by rw [hunf, heq], ?_⟩
          intro k hkid
          match k with
          | 0 =>
            simpa using hlt
          | k + 1 =>
            simp only [liftAt_cons_succ] at hkid ⊢
            exact hall k hkid
        · right
          refine ⟨k + 1, by simpa using Nat.succ_lt_succ hk, by simpa using hki,
            ?_, by simpa using hklt, ?_, ?_⟩
          · rw [hunf, heq]
            congr 1
            omega
          · intro j hj hjlt
            match j with
            | 0 =>
              simp only [liftAt_cons_zero] at hjlt
              exact absurd hjlt (by simpa using hlt)
            | j + 1 =>
              simp only [liftAt_cons_succ] at hj hjlt ⊢
              exact hmin j hj hjlt
          · intro j hjk hj hjlt
            match j with
            | 0 =>
              simp only [liftAt_cons_zero] at hjlt
              exact absurd hjlt (by simpa using hlt)
            | j + 1 =>
              simp only [liftAt_cons_succ] at hj hjlt ⊢
              exact htie j (by omega) hj hjlt
    · -- the head is not idle: it is skipped
      have hunf : findNearestGo floor (l :: rest) i n md =
          findNearestGo floor rest (i + 1) n md := by
        simp [findNearestGo, hid]
      rcases ih (i + 1) n md with ⟨heq, hall⟩ | ⟨k, hk, hki, heq, hklt, hmin, htie⟩
      · left
        refine ⟨by rw [hunf, heq], ?_⟩
        intro k hkid
        match k with
        | 0 => exact absurd (by simpa using hkid) hid
        | k + 1 =>
          simp only [liftAt_cons_succ] at hkid ⊢
          exact hall k hkid
      · right
        refine ⟨k + 1, by simpa using Nat.succ_lt_succ hk, by simpa using hki,
          ?_, by simpa using hklt, ?_, ?_⟩
        · rw [hunf, heq]
          congr 1
          omega
        · intro j hj hjlt
          match j with
          | 0 => exact absurd (by simpa using hj) hid
          | j + 1 =>
            simp only [liftAt_cons_succ] at hj hjlt ⊢
            exact hmin j hj hjlt
        · intro j hjk hj hjlt
          match j with
          | 0 => exact absurd (by simpa using hj) hid
          | j + 1 =>
            simp only [liftAt_cons_succ] at hj hjlt ⊢
            exact htie j (by omega) hj hjlt

/-! ### Consequences for `findNearestIdleLift` -/

/-- Either no lift is idle and the scan returns `-1`, or it returns the
least-index idle lift at minimal distance. -/
theorem findNearest_cases (s : SimState) (floor : Nat) :
    (findNearestIdleLift s floor = -1 ∧
      ∀ k, (liftAt s.liftStates k).status.isIdle = false)
    ∨ (∃ k, k < s.liftStates.length ∧
        (liftAt s.liftStates k).status.isIdle = true ∧
        findNearestIdleLift s floor = (k : Int) ∧
        (∀ j, (liftAt s.liftStates j).status.isIdle = true →
          dOf floor (liftAt s.liftStates k) ≤ dOf floor (liftAt s.liftStates j)) ∧
        (∀ j, j < k → (liftAt s.liftStates j).status.isIdle = true →
          dOf floor (liftAt s.liftStates k) < dOf floor (liftAt s.liftStates j))) := by
  rcases findNearestGo_char floor s.liftStates 0 (-1) none with ⟨heq, hall⟩ |
    ⟨k, hk, hki, heq, _, hmin, htie⟩
  · left
    refine ⟨heq, fun k => ?_⟩
    cases hcase : (liftAt s.liftStates k).status.isIdle with
    | false => rfl
    | true => simpa using hall k hcase
  · right
    exact ⟨k, hk, hki, by simpa using heq,
      fun j hj => hmin j hj (distLt_none _),
      fun j hjk hj => htie j hjk hj (distLt_none _)⟩

theorem findNearest_neg_iff (s : SimState) (floor : Nat) :
    findNearestIdleLift s floor = -1 ↔
      ∀ k, (liftAt s.liftStates k).status.isIdle = false := by
  rcases findNearest_cases s floor with ⟨heq, hall⟩ | ⟨k, _, hki, heq, _, _⟩
  · exact ⟨fun _ => hall, fun _ => heq⟩
  · constructor
    · intro hneg
      rw [heq] at hneg
      omega
    · intro hall
      exact absurd hki (by simp [hall k])

/-! ### Indexed access and the state updates -/

theorem get?_eq_some_liftAt {ls : List Lift} {k : Nat} (h : k < ls.length) :
    ls.get? k = some (liftAt ls k) := by
  rw [List.get?_eq_get h, liftAt, List.getD_eq_get _ _ h]

theorem liftAt_set_self {ls : List Lift} {i : Nat} (x : Lift)
    (h : i < ls.length) : liftAt (ls.set i x) i = x := by
  rw [liftAt, List.getD_eq_getD_get?, List.get?_set_eq_of_lt _ h]
  rfl

theorem liftAt_set_other {ls : List Lift} {i k : Nat} (x : Lift) (h : i ≠ k) :
    liftAt (ls.set i x) k = liftAt ls k := by
  rw [liftAt, liftAt, List.getD_eq_getD_get?, List.getD_eq_getD_get?,
    List.get?_set_ne _ _ h]

theorem moveLiftStart_eq {s : SimState} {i : Nat} (f : Nat)
    (h : i < s.liftStates.length) :
    moveLiftStart s i f = s.setLift i
      { currentFloor := (liftAt s.liftStates i).currentFloor, status := .moving f } := by
  unfold moveLiftStart
  rw [get?_eq_some_liftAt h]

@[simp] theorem moveLiftStart_pendingCalls (s : SimState) (i f : Nat) :
    (moveLiftStart s i f).pendingCalls = s.pendingCalls := by
  unfold moveLiftStart
  cases s.liftStates.get? i <;> rfl

@[simp] theorem moveLiftStart_floorCalls (s : SimState) (i f : Nat) :
    (moveLiftStart s i f).floorCalls = s.floorCalls := by
  unfold moveLiftStart
  cases s.liftStates.get? i <;> rfl

@[simp] theorem moveLiftStart_length (s : SimState) (i f : Nat) :
    (moveLiftStart s i f).liftStates.length = s.liftStates.length := by
  unfold moveLiftStart
  cases s.liftStates.get? i
  · rfl
  · simp [SimState.setLift]

theorem moveLiftStart_liftAt_self {s : SimState} {i : Nat} (f : Nat)
    (h : i < s.liftStates.length) :
    liftAt (moveLiftStart s i f).liftStates i =
      { currentFloor := (liftAt s.liftStates i).currentFloor, status := .moving f } := by
  rw [moveLiftStart_eq f h]
  exact liftAt_set_self _ h

theorem moveLiftStart_liftAt_other {s : SimState} {i k : Nat} (f : Nat)
    (h : i ≠ k) :
    liftAt (moveLiftStart s i f).liftStates k = liftAt s.liftStates k := by
  unfold moveLiftStart
  cases s.liftStates.get? i
  · rfl
  · exact liftAt_set_other _ h

@[simp] theorem setFloorCallFlag_liftStates (s : SimState) (f : Nat)
    (d : Direction) (b : Bool) :
    (setFloorCallFlag s f d b).liftStates = s.liftStates := rfl

@[simp] theorem setFloorCallFlag_pendingCalls (s : SimState) (f : Nat)
    (d : Direction) (b : Bool) :
    (setFloorCallFlag s f d b).pendingCalls = s.pendingCalls := rfl

theorem getFloorCall_set_self {s : SimState} {f : Nat}
    (h : f < s.floorCalls.length) (d : Direction) (b : Bool) :
    getFloorCall (setFloorCallFlag s f d b) f = (getFloorCall s f).set d b := by
  unfold getFloorCall setFloorCallFlag
  simp only [List.getD_eq_getD_get?, List.get?_set_eq_of_lt _ h]
  rfl

theorem getFloorCall_set_other {s : SimState} {f f' : Nat} (h : f ≠ f')
    (d : Direction) (b : Bool) :
    getFloorCall (setFloorCallFlag s f d b) f' = getFloorCall s f' := by
  unfold getFloorCall setFloorCallFlag
  simp only [List.getD_eq_getD_get?, List.get?_set_ne _ _ h]

/-- Clearing a floor's entry leaves both flags false there, whether or not
the index is in range (out of range, the default already has both false). -/
theorem getD_clear (fcs : List FloorCall) (f : Nat) :
    (fcs.set f { up := false, down := false }).getD f { up := false, down := false } =
      { up := false, down := false } := by
  by_cases h : f < fcs.length
  · simp only [List.getD_eq_getD_get?, List.get?_set_eq_of_lt _ h]
    rfl
  · rw [List.getD_eq_default]
    simpa using Nat.le_of_not_lt h

/-! ### Unfolding the operations -/

theorem callLift_dup {s : SimState} {floor : Nat} {d : Direction}
    (h : (getFloorCall s floor).get d = true) : callLift s floor d = s := by
  simp [callLift, h]

theorem callLift_eq {s : SimState} {floor : Nat} {d : Direction}
    (h : (getFloorCall s floor).get d = false) :
    callLift s floor d =
      if findNearestIdleLift s floor ≠ -1 then
        moveLiftStart (setFloorCallFlag s floor d true)
          (findNearestIdleLift s floor).toNat floor
      else
        { setFloorCallFlag s floor d true with
            pendingCalls := s.pendingCalls ++ [{ floor := floor, direction := d }] } := by
  simp only [callLift, h, Bool.not_false, if_true]
  rfl

theorem checkPendingCalls_nil {s : SimState} (h : s.pendingCalls = []) :
    checkPendingCalls s = s := by
  unfold checkPendingCalls
  rw [h]

theorem checkPendingCalls_cons {s : SimState} {c : Call} {rest : List Call}
    (h : s.pendingCalls = c :: rest) :
    checkPendingCalls s =
      if findNearestIdleLift s c.floor ≠ -1 then
        moveLiftStart { s with pendingCalls := rest }
          (findNearestIdleLift s c.floor).toNat c.floor
      else s := by
  unfold checkPendingCalls
  rw [h]
  dsimp only
  have hfn : findNearestIdleLift { s with pendingCalls := rest } c.floor =
      findNearestIdleLift s c.floor := rfl
  rw [hfn]
  by_cases hn : findNearestIdleLift s c.floor ≠ -1
  · rw [if_pos hn, if_pos hn]
  · rw [if_neg hn, if_neg hn, ← h]

theorem liftArriveCore_eq {s : SimState} {i : Nat} (f : Nat)
    (h : i < s.liftStates.length) :
    liftArriveCore s i f =
      { s with
          liftStates := s.liftStates.set i { currentFloor := f, status := .idle },
          floorCalls := s.floorCalls.set f { up := false, down := false } } := by
  unfold liftArriveCore
  rw [get?_eq_some_liftAt h]
  rfl

@[simp] theorem liftArriveCore_pendingCalls (s : SimState) (i f : Nat) :
    (liftArriveCore s i f).pendingCalls = s.pendingCalls := by
  unfold liftArriveCore
  cases s.liftStates.get? i <;> rfl

@[simp] theorem liftArriveCore_length (s : SimState) (i f : Nat) :
    (liftArriveCore s i f).liftStates.length = s.liftStates.length := by
  unfold liftArriveCore
  cases s.liftStates.get? i
  · rfl
  · simp [SimState.setLift]

theorem liftArriveCore_liftAt_self {s : SimState} {i : Nat} (f : Nat)
    (h : i < s.liftStates.length) :
    liftAt (liftArriveCore s i f).liftStates i =
      { currentFloor := f, status := .idle } := by
  rw [liftArriveCore_eq f h]
  exact liftAt_set_self _ h

theorem liftArriveCore_liftAt_other {s : SimState} {i k : Nat} (f : Nat)
    (h : i ≠ k) :
    liftAt (liftArriveCore s i f).liftStates k = liftAt s.liftStates k := by
  unfold liftArriveCore
  cases s.liftStates.get? i
  · rfl
  · exact liftAt_set_other _ h

theorem getFloorCall_arrive_self {s : SimState} {i : Nat} (f : Nat)
    (h : i < s.liftStates.length) :
    getFloorCall (liftArriveCore s i f) f = { up := false, down := false } := by
  rw [liftArriveCore_eq f h]
  exact getD_clear _ _

theorem getFloorCall_arrive_other {s : SimState} {i : Nat} {f f' : Nat}
    (h : i < s.liftStates.length) (hne : f ≠ f') :
    getFloorCall (liftArriveCore s i f) f' = getFloorCall s f' := by
  rw [liftArriveCore_eq f h]
  unfold getFloorCall
  simp only [List.getD_eq_getD_get?, List.get?_set_ne _ _ hne]

@[simp] theorem checkPendingCalls_floorCalls (s : SimState) :
    (checkPendingCalls s).floorCalls = s.floorCalls := by
  cases hq : s.pendingCalls with
  | nil => rw [checkPendingCalls_nil hq]
  | cons c rest =>
    rw [checkPendingCalls_cons hq]
    by_cases hn : findNearestIdleLift s c.floor ≠ -1
    · rw [if_pos hn, moveLiftStart_floorCalls]
    · rw [if_neg hn]

/-- A non-`-1` scan result indexes an idle lift. -/
theorem nearest_toNat_idle {s : SimState} {floor : Nat}
    (h : findNearestIdleLift s floor ≠ -1) :
    (findNearestIdleLift s floor).toNat < s.liftStates.length ∧
    (liftAt s.liftStates (findNearestIdleLift s floor).toNat).status.isIdle = true := by
  rcases findNearest_cases s floor with ⟨heq, _⟩ | ⟨k, hk, hki, heq, _, _⟩
  · exact absurd heq h
  · rw [heq]
    simpa using ⟨hk, hki⟩

/-- If any lift is idle, draining dispatches the dequeued front request to
an idle lift and the queue loses exactly its front. -/
theorem checkPendingCalls_dispatch {s : SimState} {c : Call} {rest : List Call}
    (h : s.pendingCalls = c :: rest) {k0 : Nat}
    (hidle : (liftAt s.liftStates k0).status.isIdle = true) :
    ∃ k, k < s.liftStates.length ∧
      (liftAt s.liftStates k).status.isIdle = true ∧
      checkPendingCalls s = moveLiftStart { s with pendingCalls := rest } k c.floor ∧
      (∀ j, (liftAt s.liftStates j).status.isIdle = true →
        dOf c.floor (liftAt s.liftStates k) ≤ dOf c.floor (liftAt s.liftStates j)) := by
  rcases findNearest_cases s c.floor with ⟨_, hall⟩ | ⟨k, hk, hki, heq, hmin, _⟩
  · exact absurd hidle (by simp [hall k0])
  · refine ⟨k, hk, hki, ?_, hmin⟩
    rw [checkPendingCalls_cons h, if_pos (by rw [heq]; omega)]
    congr 1
    rw [heq]
    exact Int.toNat_natCast k

/-- Draining never touches a moving lift: its status (and in-flight
destination) survives `checkPendingCalls`. -/
theorem checkPendingCalls_preserves_moving {s : SimState} {k t : Nat}
    (h : (liftAt s.liftStates k).status = .moving t) :
    (liftAt (checkPendingCalls s).liftStates k).status = .moving t := by
  cases hq : s.pendingCalls with
  | nil => rw [checkPendingCalls_nil hq]; exact h
  | cons c rest =>
    rw [checkPendingCalls_cons hq]
    by_cases hn : findNearestIdleLift s c.floor ≠ -1
    · rw [if_pos hn]
      obtain ⟨_, hki⟩ := nearest_toNat_idle hn
      have hne : (findNearestIdleLift s c.floor).toNat ≠ k := by
        intro hcontra
        rw [hcontra, h] at hki
        simp [LiftStatus.isIdle] at hki
      have hstep := moveLiftStart_liftAt_other (s := { s with pendingCalls := rest })
        (i := (findNearestIdleLift s c.floor).toNat) (k := k) c.floor hne
      rw [hstep]
      exact h
    · rw [if_neg hn]
      exact h

/-- Draining leaves the queue's tail: the result queue is the whole queue
(when nothing could be dispatched) or its tail (front dispatched). -/
theorem checkPendingCalls_pending (s : SimState) :
    (checkPendingCalls s).pendingCalls = s.pendingCalls ∨
    (checkPendingCalls s).pendingCalls = s.pendingCalls.tail := by
  cases hq : s.pendingCalls with
  | nil => rw [checkPendingCalls_nil hq, hq]; left; rfl
  | cons c rest =>
    rw [checkPendingCalls_cons hq]
    by_cases hn : findNearestIdleLift s c.floor ≠ -1
    · rw [if_pos hn, moveLiftStart_pendingCalls]
      right
      rfl
    · rw [if_neg hn, hq]
      left
      rfl

/-- A submit with the flag clear and no idle lift appends the request to
the tail of the pending queue. -/
theorem callLift_enqueue {s : SimState} {f : Nat} {d : Direction}
    (hflag : (getFloorCall s f).get d = false)
    (hnone : ∀ k, (liftAt s.liftStates k).status.isIdle = false) :
    (callLift s f d).pendingCalls =
      s.pendingCalls ++ [{ floor := f, direction := d }] := by
  rw [callLift_eq hflag]
  have hneg : findNearestIdleLift s f = -1 := (findNearest_neg_iff s f).mpr hnone
  rw [if_neg (by simp [hneg])]

/-- Draining with an idle lift available: the front is removed from the
queue and some idle lift is sent toward the front request's floor. -/
theorem drain_spec {s : SimState} {c : Call} {rest : List Call}
    (hq : s.pendingCalls = c :: rest) {k0 : Nat}
    (hidle : (liftAt s.liftStates k0).status.isIdle = true) :
    (checkPendingCalls s).pendingCalls = rest ∧
    ∃ k, k < s.liftStates.length ∧
      (liftAt s.liftStates k).status.isIdle = true ∧
      (liftAt (checkPendingCalls s).liftStates k).status = .moving c.floor := by
  obtain ⟨k, hk, hki, heq, -⟩ := checkPendingCalls_dispatch hq hidle
  refine ⟨by rw [heq, moveLiftStart_pendingCalls], k, hk, hki, ?_⟩
  rw [heq]
  have hk' : k < ({ s with pendingCalls := rest } : SimState).liftStates.length := hk
  rw [moveLiftStart_liftAt_self c.floor hk']

/-- A lift-finish reaction with a queued request: the arriving lift is
idle at drain time, so the front request is dispatched and leaves the
queue. -/
theorem liftFinish_drain {s : SimState} {i f : Nat}
    (hi : i < s.liftStates.length) {c : Call} {rest : List Call}
    (hq : s.pendingCalls = c :: rest) :
    (liftFinish s i f).pendingCalls = rest ∧
    ∃ k, k < s.liftStates.length ∧
      (liftAt (liftFinish s i f).liftStates k).status = .moving c.floor := by
  have hqt : (liftArriveCore s i f).pendingCalls = c :: rest := by
    rw [liftArriveCore_pendingCalls, hq]
  have hidle : (liftAt (liftArriveCore s i f).liftStates i).status.isIdle = true := by
    rw [liftArriveCore_liftAt_self f hi]
    rfl
  obtain ⟨ha, k, hk, _, hmv⟩ := drain_spec hqt hidle
  exact ⟨ha, k, by rwa [liftArriveCore_length] at hk, hmv⟩

/-- Setting a flag to true never turns any flag off. -/
theorem getFloorCall_set_true {s : SimState} {f : Nat} {d : Direction}
    {x : Nat} {dx : Direction}
    (h : (getFloorCall s x).get dx = true) :
    (getFloorCall (setFloorCallFlag s f d true) x).get dx = true := by
  by_cases hxf : f = x
  · subst hxf
    by_cases hr : f < s.floorCalls.length
    · rw [getFloorCall_set_self hr]
      cases d <;> cases dx <;>
        simp_all [FloorCall.get, FloorCall.set]
    · have hset : s.floorCalls.set f ((getFloorCall s f).set d true) = s.floorCalls :=
        List.set_eq_of_length_le (Nat.le_of_not_lt hr)
      have hstate : setFloorCallFlag s f d true = s := by
        unfold setFloorCallFlag
        rw [hset]
      rw [hstate]
      exact h
  · rw [getFloorCall_set_other hxf]
    exact h

theorem getFloorCall_checkPending (s : SimState) (x : Nat) :
    getFloorCall (checkPendingCalls s) x = getFloorCall s x := by
  unfold getFloorCall
  rw [checkPendingCalls_floorCalls]

/-- The drain `checkPendingCalls` only reads `liftStates` and
`pendingCalls`: replacing the registry commutes with it. -/
theorem checkPendingCalls_swap (s : SimState) (fcs : List FloorCall) :
    checkPendingCalls { s with floorCalls := fcs } =
      { checkPendingCalls s with floorCalls := fcs } := by
  obtain ⟨fl, lf, ls, fc, pc⟩ := s
  cases pc with
  | nil => rfl
  | cons c rest =>
    dsimp only [checkPendingCalls, findNearestIdleLift]
    by_cases hn : findNearestGo c.floor ls 0 (-1) none ≠ -1
    · rw [if_pos hn, if_pos hn]
      dsimp only [moveLiftStart]
      cases ls.get? (findNearestGo c.floor ls 0 (-1) none).toNat <;> rfl
    · rw [if_neg hn, if_neg hn]

/-- Bounded no-idle check implies the index-wise one (out of range the
placeholder is non-idle). -/
theorem noIdle_of_all {ls : List Lift}
    (h : ∀ l ∈ ls, l.status.isIdle = false) :
    ∀ k, (liftAt ls k).status.isIdle = false := by
  intro k
  by_cases hk : k < ls.length
  · rw [liftAt, List.getD_eq_getElem _ _ hk]
    exact h _ (List.getElem_mem hk)
  · rw [liftAt, List.getD_eq_default _ _ (Nat.le_of_not_lt hk)]
    exact dummyLift_not_idle

/-! ### Claim theorems -/

/-- Claim C2: `findNearestIdleLift` returns `-1` exactly when no lift is
idle; when some lift is idle it returns the index of an idle lift whose
distance `abs(currentFloor - floor)` is minimal among all idle lifts, and
every idle lift with smaller index is strictly farther (ties go to the
first index encountered). -/
theorem claim_C2 (s : SimState) (floor : Nat) :
    (findNearestIdleLift s floor = -1 ↔
      ∀ k, (liftAt s.liftStates k).status.isIdle = false)
    ∧ (∀ k0, (liftAt s.liftStates k0).status.isIdle = true →
        ∃ k, k < s.liftStates.length ∧
          (liftAt s.liftStates k).status.isIdle = true ∧
          findNearestIdleLift s floor = (k : Int) ∧
          (∀ j, (liftAt s.liftStates j).status.isIdle = true →
            floorDist (liftAt s.liftStates k).currentFloor floor ≤
              floorDist (liftAt s.liftStates j).currentFloor floor) ∧
          (∀ j, j < k → (liftAt s.liftStates j).status.isIdle = true →
            floorDist (liftAt s.liftStates k).currentFloor floor <
              floorDist (liftAt s.liftStates j).currentFloor floor)) := by
  refine ⟨findNearest_neg_iff s floor, ?_⟩
  intro k0 hk0
  rcases findNearest_cases s floor with ⟨_, hall⟩ | ⟨k, hk, hki, heq, hmin, htie⟩
  · exact absurd hk0 (by simp [hall k0])
  · exact ⟨k, hk, hki, heq, hmin, htie⟩

/-- Two idle lifts at floors 3 and 7 and a request for floor 5
(distances 2 and 2): selection picks the lower index. -/
def tieState : SimState :=
  { floors := 9
    lifts := 2
    liftStates := [{ currentFloor := 3, status := .idle },
                   { currentFloor := 7, status := .idle }]
    floorCalls := List.replicate 10 { up := false, down := false }
    pendingCalls := [] }

theorem claim_C2_witness :
    (∃ k, k < tieState.liftStates.length ∧
      (liftAt tieState.liftStates k).status.isIdle = true ∧
      findNearestIdleLift tieState 5 = (k : Int) ∧
      (∀ j, (liftAt tieState.liftStates j).status.isIdle = true →
        floorDist (liftAt tieState.liftStates k).currentFloor 5 ≤
          floorDist (liftAt tieState.liftStates j).currentFloor 5) ∧
      (∀ j, j < k → (liftAt tieState.liftStates j).status.isIdle = true →
        floorDist (liftAt tieState.liftStates k).currentFloor 5 <
          floorDist (liftAt tieState.liftStates j).currentFloor 5))
    ∧ findNearestIdleLift tieState 5 = 0 :=
  ⟨(claim_C2 tieState 5).2 0 (by decide), by decide⟩

/-- Claim C5: a duplicate submit (registry flag for the floor and
direction already true) leaves the whole state unchanged, and the one
active registry entry remains. -/
theorem claim_C5 (s : SimState) (floor : Nat) (d : Direction)
    (h : (getFloorCall s floor).get d = true) :
    callLift s floor d = s ∧
    (getFloorCall (callLift s floor d) floor).get d = true := by
  refine ⟨callLift_dup h, ?_⟩
  rw [callLift_dup h]
  exact h

/-- A state with the (5, up) flag already active: resubmitting is a no-op. -/
def dupState : SimState := callLift (createInitialState 9 2) 5 .up

theorem claim_C5_witness :
    callLift dupState 5 .up = dupState ∧
    (getFloorCall (callLift dupState 5 .up) 5).get .up = true :=
  claim_C5 dupState 5 .up (by decide)

/-- Claim C8 counterexample: a call at a resting lift's own floor does
not skip the 'moving' status: the dispatch still sets the status string
to 'moving' (here with the lift idle at floor 1 and a call at floor 1). -/
theorem claim_C8_counterexample :
    (liftAt (createInitialState 9 1).liftStates 0).status = .idle ∧
    (liftAt (createInitialState 9 1).liftStates 0).currentFloor = 1 ∧
    (liftAt (callLift (createInitialState 9 1) 1 .up).liftStates 0).status =
      .moving 1 := by
  decide

/-- Claim C8 amended: for a request at an idle lift's resting floor the
movement phase has zero duration (`floorsToMove = 0`, so `moveTime = 0`;
the status string still passes through 'moving' for that zero-length
phase), and after the door cycle the lift is idle at the same floor. -/
theorem claim_C8_amended {s : SimState} {i f : Nat}
    (h : i < s.liftStates.length)
    (_hidle : (liftAt s.liftStates i).status.isIdle = true)
    (hfloor : (liftAt s.liftStates i).currentFloor = f) :
    moveTime (moveLiftStart s i f) i f = 0 ∧
    liftAt (liftArriveCore (moveLiftStart s i f) i f).liftStates i =
      { currentFloor := f, status := .idle } := by
  constructor
  · unfold moveTime floorsToMove
    rw [moveLiftStart_liftAt_self f h]
    simp [floorDist, hfloor]
  · have h' : i < (moveLiftStart s i f).liftStates.length := by
      rw [moveLiftStart_length]
      exact h
    exact liftArriveCore_liftAt_self f h'

theorem claim_C8_amended_witness :
    moveTime (moveLiftStart (createInitialState 9 1) 0 1) 0 1 = 0 ∧
    liftAt (liftArriveCore (moveLiftStart (createInitialState 9 1) 0 1) 0 1).liftStates 0 =
      { currentFloor := 1, status := .idle } :=
  claim_C8_amended (by decide) (by decide) (by decide)

/-- Claim C9: the start handler constructs a simulation exactly when both
inputs parse and lie in bounds (floors 2..9, lifts 1..5); in bounds it
clears the error message and builds the initial state; out of bounds
(including non-numeric input, modeled as `none`) it surfaces a non-empty
error message and constructs nothing. -/
theorem claim_C9 (fi li : Option Int) :
    ((startSimulation fi li).2.isSome = true ↔
      ∃ f l, fi = some f ∧ li = some l ∧ 2 ≤ f ∧ f ≤ 9 ∧ 1 ≤ l ∧ l ≤ 5)
    ∧ (∀ f l, fi = some f → li = some l →
        2 ≤ f → f ≤ 9 → 1 ≤ l → l ≤ 5 →
        startSimulation fi li = ("", some (createInitialState f.toNat l.toNat)))
    ∧ ((startSimulation fi li).2 = none → (startSimulation fi li).1 ≠ "") := by
  rcases fi with _ | f
  · refine ⟨by simp [startSimulation], ?_, by simp [startSimulation]⟩
    intro f l hf
    cases hf
  rcases li with _ | l
  · unfold startSimulation
    dsimp only
    by_cases hf : f < 2 ∨ 9 < f
    · rw [if_pos hf]
      refine ⟨by simp, ?_, by simp⟩
      intro f' l' _ hl'
      cases hl'
    · rw [if_neg hf]
      refine ⟨by simp, ?_, by simp⟩
      intro f' l' _ hl'
      cases hl'
  unfold startSimulation
  dsimp only
  by_cases hf : f < 2 ∨ 9 < f
  · rw [if_pos hf]
    refine ⟨?_, ?_, by simp⟩
    · constructor
      · intro hcontra
        simp at hcontra
      · rintro ⟨f', l', hf', -, h2, h9, -, -⟩
        injection hf' with hff
        omega
    · intro f' l' hf' _ h2 h9 _ _
      injection hf' with hff
      omega
  · by_cases hl : l < 1 ∨ 5 < l
    · rw [if_neg hf, if_pos hl]
      refine ⟨?_, ?_, by simp⟩
      · constructor
        · intro hcontra
          simp at hcontra
        · rintro ⟨f', l', -, hl', -, -, h1, h5⟩
          injection hl' with hll
          omega
      · intro f' l' _ hl' _ _ h1 h5
        injection hl' with hll
        omega
    · rw [if_neg hf, if_neg hl]
      refine ⟨?_, ?_, by simp⟩
      · constructor
        · intro _
          exact ⟨f, l, rfl, rfl, by omega, by omega, by omega, by omega⟩
        · intro _
          rfl
      · intro f' l' hf' hl' _ _ _ _
        injection hf' with hff
        injection hl' with hll
        rw [hff, hll]

theorem claim_C9_witness :
    startSimulation (some 5) (some 3) =
      ("", some (createInitialState 5 3)) ∧
    (startSimulation (some 12) (some 3)).2 = none ∧
    (startSimulation none (some 3)).2 = none :=
  ⟨(claim_C9 (some 5) (some 3)).2.1 5 3 rfl rfl (by decide) (by decide)
      (by decide) (by decide),
    by decide, by decide⟩

/-- Claim C1: a request submitted while no lift is idle is appended to
the pending queue; a submit never removes queue entries (no drop); and
when a lift finishes its trip while the queue is non-empty, the front
request leaves the queue and some lift is dispatched toward its floor. -/
theorem claim_C1 :
    (∀ (s : SimState) (f : Nat) (d : Direction),
        (getFloorCall s f).get d = false →
        (∀ k, (liftAt s.liftStates k).status.isIdle = false) →
        (callLift s f d).pendingCalls =
          s.pendingCalls ++ [{ floor := f, direction := d }])
    ∧ (∀ (s : SimState) (f : Nat) (d : Direction),
        (callLift s f d).pendingCalls = s.pendingCalls ∨
        (callLift s f d).pendingCalls =
          s.pendingCalls ++ [{ floor := f, direction := d }])
    ∧ (∀ (s : SimState) (i f : Nat), i < s.liftStates.length →
        ∀ (c : Call) (rest : List Call), s.pendingCalls = c :: rest →
          (liftFinish s i f).pendingCalls = rest ∧
          ∃ k, k < s.liftStates.length ∧
            (liftAt (liftFinish s i f).liftStates k).status = .moving c.floor) := by
  refine ⟨fun s f d hflag hnone => callLift_enqueue hflag hnone, ?_, ?_⟩
  · intro s f d
    by_cases hflag : (getFloorCall s f).get d = true
    · left
      rw [callLift_dup hflag]
    · rw [callLift_eq (Bool.eq_false_iff.mpr hflag)]
      by_cases hn : findNearestIdleLift s f ≠ -1
      · left
        rw [if_pos hn, moveLiftStart_pendingCalls, setFloorCallFlag_pendingCalls]
      · right
        rw [if_neg hn]
  · intro s i f hi c rest hq
    exact liftFinish_drain hi hq

/-- A single lift sent to floor 5; every further call finds no idle lift. -/
def busyState : SimState := callLift (createInitialState 9 1) 5 .up

/-- State `busyState` plus a queued request for floor 3. -/
def busyState2 : SimState := callLift busyState 3 .up

theorem claim_C1_witness :
    ((callLift busyState 3 .up).pendingCalls =
      busyState.pendingCalls ++ [{ floor := 3, direction := .up }]) ∧
    ((liftFinish busyState2 0 5).pendingCalls = [] ∧
      ∃ k, k < busyState2.liftStates.length ∧
        (liftAt (liftFinish busyState2 0 5).liftStates k).status = .moving 3) :=
  ⟨claim_C1.1 busyState 3 .up (by decide) (noIdle_of_all (by decide)),
    claim_C1.2.2 busyState2 0 5 (by decide) { floor := 3, direction := .up } []
      (by decide)⟩

/-- Claim C3: the pending queue is FIFO: an unassignable submit appends
at the tail; draining removes the front and dispatches it when an idle
lift exists; when no lift is idle, the dequeued front is reinserted at
the head, leaving the queue exactly as it was. -/
theorem claim_C3 :
    (∀ (s : SimState) (f : Nat) (d : Direction),
        (getFloorCall s f).get d = false →
        (∀ k, (liftAt s.liftStates k).status.isIdle = false) →
        (callLift s f d).pendingCalls =
          s.pendingCalls ++ [{ floor := f, direction := d }])
    ∧ (∀ (s : SimState) (c : Call) (rest : List Call),
        s.pendingCalls = c :: rest →
        ∀ k0, (liftAt s.liftStates k0).status.isIdle = true →
          (checkPendingCalls s).pendingCalls = rest ∧
          ∃ k, k < s.liftStates.length ∧
            (liftAt s.liftStates k).status.isIdle = true ∧
            (liftAt (checkPendingCalls s).liftStates k).status = .moving c.floor)
    ∧ (∀ (s : SimState) (c : Call) (rest : List Call),
        s.pendingCalls = c :: rest →
        (∀ k, (liftAt s.liftStates k).status.isIdle = false) →
        checkPendingCalls s = s) := by
  refine ⟨fun s f d hflag hnone => callLift_enqueue hflag hnone,
    fun s c rest hq k0 hidle => drain_spec hq hidle, ?_⟩
  intro s c rest hq hnone
  rw [checkPendingCalls_cons hq,
    if_neg (by simp [(findNearest_neg_iff s c.floor).mpr hnone])]

/-- State `busyState2` after its lift arrives at floor 5: lift idle at
floor 5 with the queue still holding the request for floor 3. -/
def idleQueueState : SimState := liftArriveCore busyState2 0 5

theorem claim_C3_witness :
    ((checkPendingCalls idleQueueState).pendingCalls = [] ∧
      ∃ k, k < idleQueueState.liftStates.length ∧
        (liftAt idleQueueState.liftStates k).status.isIdle = true ∧
        (liftAt (checkPendingCalls idleQueueState).liftStates k).status =
          .moving 3) ∧
    checkPendingCalls busyState2 = busyState2 :=
  ⟨claim_C3.2.1 idleQueueState { floor := 3, direction := .up } [] (by decide)
      0 (by decide),
    claim_C3.2.2 busyState2 { floor := 3, direction := .up } [] (by decide)
      (noIdle_of_all (by decide))⟩

/-- Claim C4: when a lift completes its door cycle at floor `f`, both
registry flags at `f` end up false; with an empty queue nothing else
happens; with a non-empty queue exactly the front request is removed and
dispatched (the arriving lift is idle, so a candidate always exists at
this point); and the requeue arm of the drain puts the front back,
leaving the queue unchanged, attempting no further entry. -/
theorem claim_C4 :
    (∀ (s : SimState) (i f : Nat), i < s.liftStates.length →
        getFloorCall (liftFinish s i f) f = { up := false, down := false })
    ∧ (∀ (s : SimState) (i f : Nat), s.pendingCalls = [] →
        liftFinish s i f = liftArriveCore s i f)
    ∧ (∀ (s : SimState) (i f : Nat), i < s.liftStates.length →
        ∀ (c : Call) (rest : List Call), s.pendingCalls = c :: rest →
          (liftFinish s i f).pendingCalls = rest)
    ∧ (∀ (s : SimState) (c : Call) (rest : List Call),
        s.pendingCalls = c :: rest →
        (∀ k, (liftAt s.liftStates k).status.isIdle = false) →
        checkPendingCalls s = s) := by
  refine ⟨?_, ?_, ?_, ?_⟩
  · intro s i f hi
    show getFloorCall (checkPendingCalls (liftArriveCore s i f)) f = _
    rw [getFloorCall_checkPending]
    exact getFloorCall_arrive_self f hi
  · intro s i f hq
    show checkPendingCalls (liftArriveCore s i f) = _
    exact checkPendingCalls_nil (by rw [liftArriveCore_pendingCalls, hq])
  · intro s i f hi c rest hq
    exact (liftFinish_drain hi hq).1
  · intro s c rest hq hnone
    rw [checkPendingCalls_cons hq,
      if_neg (by simp [(findNearest_neg_iff s c.floor).mpr hnone])]

theorem claim_C4_witness :
    getFloorCall (liftFinish busyState2 0 5) 5 = { up := false, down := false } ∧
    (liftFinish busyState2 0 5).pendingCalls = [] ∧
    liftFinish busyState 0 5 = liftArriveCore busyState 0 5 :=
  ⟨claim_C4.1 busyState2 0 5 (by decide),
    claim_C4.2.2.1 busyState2 0 5 (by decide) { floor := 3, direction := .up } []
      (by decide),
    claim_C4.2.1 busyState 0 5 (by decide)⟩

/-- Claim C7: every dispatch targets a lift that is idle at the moment of
assignment (the scan only returns idle lifts, and both dispatch sites use
the scan's result), and no lift gets a second destination while one is in
flight: a moving lift's status and recorded destination are untouched by
submits, by drains, and by another lift's finish reaction. -/
theorem claim_C7 :
    (∀ (s : SimState) (floor : Nat), findNearestIdleLift s floor ≠ -1 →
        (liftAt s.liftStates (findNearestIdleLift s floor).toNat).status.isIdle = true)
    ∧ (∀ (s : SimState) (f : Nat) (d : Direction) (k t : Nat),
        (liftAt s.liftStates k).status = .moving t →
        (liftAt (callLift s f d).liftStates k).status = .moving t)
    ∧ (∀ (s : SimState) (k t : Nat),
        (liftAt s.liftStates k).status = .moving t →
        (liftAt (checkPendingCalls s).liftStates k).status = .moving t)
    ∧ (∀ (s : SimState) (i f k t : Nat), k ≠ i →
        (liftAt s.liftStates k).status = .moving t →
        (liftAt (liftFinish s i f).liftStates k).status = .moving t) := by
  refine ⟨fun s floor h => (nearest_toNat_idle h).2, ?_,
    fun s k t h => checkPendingCalls_preserves_moving h, ?_⟩
  · intro s f d k t h
    by_cases hflag : (getFloorCall s f).get d = true
    · rw [callLift_dup hflag]
      exact h
    · rw [callLift_eq (Bool.eq_false_iff.mpr hflag)]
      by_cases hn : findNearestIdleLift s f ≠ -1
      · rw [if_pos hn]
        have hki := (nearest_toNat_idle hn).2
        have hne : (findNearestIdleLift s f).toNat ≠ k := by
          intro hcontra
          rw [hcontra, h] at hki
          simp [LiftStatus.isIdle] at hki
        have hstep := moveLiftStart_liftAt_other
          (s := setFloorCallFlag s f d true)
          (i := (findNearestIdleLift s f).toNat) (k := k) f hne
        rw [hstep]
        exact h
      · rw [if_neg hn]
        exact h
  · intro s i f k t hki h
    have h' : (liftAt (liftArriveCore s i f).liftStates k).status = .moving t := by
      rw [liftArriveCore_liftAt_other f (Ne.symm hki)]
      exact h
    exact checkPendingCalls_preserves_moving h'

theorem claim_C7_witness :
    (liftAt (createInitialState 9 2).liftStates
      (findNearestIdleLift (createInitialState 9 2) 5).toNat).status.isIdle = true ∧
    (liftAt (callLift busyState 3 .up).liftStates 0).status = .moving 5 :=
  ⟨claim_C7.1 (createInitialState 9 2) 5 (by decide),
    claim_C7.2.1 busyState 3 .up 0 5 (by decide)⟩

/-- Every queued request still has its registry flag set. -/
def queueFlagsSet (s : SimState) : Prop :=
  ∀ c ∈ s.pendingCalls, (getFloorCall s c.floor).get c.direction = true

instance (s : SimState) : Decidable (queueFlagsSet s) :=
  List.decidableBAll _ s.pendingCalls

/-- One lift, dispatched to floor 5 for (5, up). -/
def cexS1 : SimState := callLift (createInitialState 9 1) 5 .up

/-- Next, (3, up) arrives with no idle lift and is queued. -/
def cexS2 : SimState := callLift cexS1 3 .up

/-- Next, (5, down) arrives with no idle lift and is queued behind it. -/
def cexS3 : SimState := callLift cexS2 5 .down

/-- Finally the lift arrives at floor 5: both flags at 5 are cleared and
the front request (3, up) is dispatched, leaving (5, down) queued with its
flag already false. -/
def cexState : SimState := liftFinish cexS3 0 5

/-- Claim C6 counterexample: a reachable state whose pending queue holds
the request (5, down) while the registry flag for (5, down) is false: the
arrival at floor 5 cleared both direction flags there although (5, down)
sat behind the queue front and was not served. -/
theorem claim_C6_counterexample :
    Reachable cexState ∧
    ({ floor := 5, direction := .down } : Call) ∈ cexState.pendingCalls ∧
    (getFloorCall cexState 5).get .down = false := by
  refine ⟨?_, by decide, by decide⟩
  have h0 : Reachable (createInitialState 9 1) :=
    .init 9 1 (by omega) (by omega) (by omega) (by omega)
  have h1 : Reachable cexS1 :=
    .call 5 .up h0 (by decide) (by decide) (by decide) (by decide)
  have h2 : Reachable cexS2 :=
    .call 3 .up h1 (by decide) (by decide) (by decide) (by decide)
  have h3 : Reachable cexS3 :=
    .call 5 .down h2 (by decide) (by decide) (by decide) (by decide)
  exact .finish 0 5 { currentFloor := 1, status := .moving 5 } h3
    (by decide) (by decide)

/-- Claim C6 amended: the queued-flag invariant is preserved by request
submission and by queue draining; a lift arrival at floor `f` preserves it
provided no queued request behind the front targets `f` — without that
proviso the arrival clears both flags at `f` and can falsify it for a
queued request (see the counterexample). -/
theorem claim_C6_amended :
    (∀ (s : SimState) (f : Nat) (d : Direction), f < s.floorCalls.length →
        queueFlagsSet s → queueFlagsSet (callLift s f d))
    ∧ (∀ s : SimState, queueFlagsSet s → queueFlagsSet (checkPendingCalls s))
    ∧ (∀ (s : SimState) (i f : Nat), i < s.liftStates.length →
        (∀ c ∈ s.pendingCalls.tail, c.floor ≠ f) →
        queueFlagsSet s → queueFlagsSet (liftFinish s i f)) := by
  refine ⟨?_, ?_, ?_⟩
  · intro s f d hr hinv c hc
    by_cases hflag : (getFloorCall s f).get d = true
    · rw [callLift_dup hflag] at hc ⊢
      exact hinv c hc
    · rw [callLift_eq (Bool.eq_false_iff.mpr hflag)] at hc ⊢
      by_cases hn : findNearestIdleLift s f ≠ -1
      · rw [if_pos hn] at hc ⊢
        rw [moveLiftStart_pendingCalls, setFloorCallFlag_pendingCalls] at hc
        have hfc : getFloorCall (moveLiftStart (setFloorCallFlag s f d true)
            (findNearestIdleLift s f).toNat f) c.floor =
            getFloorCall (setFloorCallFlag s f d true) c.floor := by
          unfold getFloorCall
          rw [moveLiftStart_floorCalls]
        rw [hfc]
        exact getFloorCall_set_true (hinv c hc)
      · rw [if_neg hn] at hc ⊢
        have hc' : c ∈ s.pendingCalls ++ [({ floor := f, direction := d } : Call)] := hc
        rcases List.mem_append.mp hc' with hmem | hmem
        · show (getFloorCall (setFloorCallFlag s f d true) c.floor).get c.direction = true
          exact getFloorCall_set_true (hinv c hmem)
        · have hcg : c = { floor := f, direction := d } := by simpa using hmem
          subst hcg
          show (getFloorCall (setFloorCallFlag s f d true) f).get d = true
          rw [getFloorCall_set_self hr]
          cases d <;> rfl
  · intro s hinv c hc
    rw [getFloorCall_checkPending]
    rcases checkPendingCalls_pending s with hp | hp
    · rw [hp] at hc
      exact hinv c hc
    · rw [hp] at hc
      cases hq : s.pendingCalls with
      | nil =>
        rw [hq] at hc
        cases hc
      | cons c0 rest =>
        rw [hq] at hc
        exact hinv c (by rw [hq]; exact List.mem_cons_of_mem c0 hc)
  · intro s i f hi htail hinv c hc
    cases hq : s.pendingCalls with
    | nil =>
      have hfin : liftFinish s i f = liftArriveCore s i f :=
        checkPendingCalls_nil (by rw [liftArriveCore_pendingCalls, hq])
      rw [hfin, liftArriveCore_pendingCalls, hq] at hc
      cases hc
    | cons c0 rest =>
      have hdrain := liftFinish_drain (f := f) hi hq
      rw [hdrain.1] at hc
      have hcs : c ∈ s.pendingCalls := by
        rw [hq]
        exact List.mem_cons_of_mem c0 hc
      have hcf : c.floor ≠ f := htail c (by rw [hq]; exact hc)
      have hfc1 : getFloorCall (liftFinish s i f) c.floor =
          getFloorCall (liftArriveCore s i f) c.floor :=
        getFloorCall_checkPending (liftArriveCore s i f) c.floor
      rw [hfc1, getFloorCall_arrive_other hi (Ne.symm hcf)]
      exact hinv c hcs

theorem claim_C6_amended_witness :
    queueFlagsSet (callLift busyState 7 .up) ∧
    queueFlagsSet (liftFinish busyState2 0 5) :=
  ⟨claim_C6_amended.1 busyState 7 .up (by decide) (by decide),
    claim_C6_amended.2.2 busyState2 0 5 (by decide) (by decide) (by decide)⟩

/-- Claim C10: queue draining never consults the registry: replacing the
whole registry commutes with `checkPendingCalls`, and a dequeued front
request is dispatched to an idle lift with no condition on its flags — so
a request whose flag was already cleared still gets a lift sent to its
floor. -/
theorem claim_C10 :
    (∀ (s : SimState) (fcs : List FloorCall),
        checkPendingCalls { s with floorCalls := fcs } =
          { checkPendingCalls s with floorCalls := fcs })
    ∧ (∀ (s : SimState) (c : Call) (rest : List Call),
        s.pendingCalls = c :: rest →
        ∀ k0, (liftAt s.liftStates k0).status.isIdle = true →
          (checkPendingCalls s).pendingCalls = rest ∧
          ∃ k, k < s.liftStates.length ∧
            (liftAt (checkPendingCalls s).liftStates k).status = .moving c.floor) := by
  refine ⟨checkPendingCalls_swap, ?_⟩
  intro s c rest hq k0 hidle
  obtain ⟨ha, k, hk, _, hmv⟩ := drain_spec hq hidle
  exact ⟨ha, k, hk, hmv⟩

/-- State `cexState` after its lift arrives at floor 3: the lift is idle
and the queue still holds (5, down), whose registry flag is already false. -/
def regState : SimState := liftArriveCore cexState 0 3

theorem claim_C10_witness :
    (getFloorCall regState 5).get .down = false ∧
    ((checkPendingCalls regState).pendingCalls = [] ∧
      ∃ k, k < regState.liftStates.length ∧
        (liftAt (checkPendingCalls regState).liftStates k).status = .moving 5) ∧
    moveTime regState 0 5 = 4000 :=
  ⟨by decide,
    claim_C10.2 regState { floor := 5, direction := .down } [] (by decide)
      0 (by decide),
    by decide⟩

end LiftSim
